import Mathlib

/-!
# Verification of the VRML parsing core (vrml-reborn)

A shallow embedding, in Lean 4, of the two parsing stages of the
`vrml-reborn` repository:

* `src/parser/protoParser.ts` — the PROTO (template) registry, block
  extractor, field-declaration parser, IS-binding resolver and the
  recursive instance expander;
* `src/parser/vrmlParser.ts` — the scene-node extractor (`parseShapeNode`,
  `parseVRML`).

The TypeScript code works on JavaScript strings with literal regular
expressions.  The embedding works on `List Char` and replaces each regular
expression by an explicit character-level scanner implementing the
backtracking behaviour of that particular pattern (the patterns involved
are simple enough that their JS semantics can be spelled out exactly:
greedy runs of a character class never backtrack into a disjoint class,
lazy groups grow one character at a time, global scans resume at the end
of the previous match).  JavaScript numbers are modelled as `Option ℚ`
(`none` plays the role of `NaN`); every numeric value in the pipeline is
produced by decimal-literal parsing and consumed by decimal printing, on
which the rational model agrees with IEEE doubles.

Definitions mirror the TypeScript sources function by function and keep
their names.  Scanners that advance through the text are written with a
"skip counter" so that all recursions are structural (hence reducible by
`rfl`/`decide`).
-/

/-- Character lists stand in for JavaScript strings. -/
abbrev LC := List Char

/-- JS `\w` character class: `[A-Za-z0-9_]`. -/
def isWordChar (c : Char) : Bool :=
  (('a' ≤ c) && (c ≤ 'z')) || (('A' ≤ c) && (c ≤ 'Z')) ||
  (('0' ≤ c) && (c ≤ '9')) || (c = '_')

/-- JS `\s` character class (ASCII part, which is all the inputs use). -/
def isSpaceChar (c : Char) : Bool :=
  (c = ' ') || (c = '\t') || (c = '\n') || (c = '\x0b') || (c = '\x0c') || (c = '\r')

/-- JS `\d` character class. -/
def isDigitChar (c : Char) : Bool := ('0' ≤ c) && (c ≤ '9')

/-- Lower-case an ASCII letter (used for the `i` regex flag). -/
def lowerChar (c : Char) : Char :=
  if ('A' ≤ c) && (c ≤ 'Z') then Char.ofNat (c.toNat + 32) else c

/-- Case-insensitive character comparison. -/
def eqCI (a b : Char) : Bool := lowerChar a = lowerChar b

/-- Literal prefix test, optionally case-insensitive (`ci = true`). -/
def litAt (ci : Bool) : LC → LC → Bool
  | [], _ => true
  | _ :: _, [] => false
  | p :: ps, c :: cs => (if ci then eqCI p c else p = c) && litAt ci ps cs

/-- Case-insensitive substring test (models `/kw/i.test(s)`). -/
def containsLit (ci : Bool) (kw : LC) : LC → Bool
  | [] => litAt ci kw []
  | c :: rest => litAt ci kw (c :: rest) || containsLit ci kw rest

/-- JS `String.prototype.trim` (strips `\s` on both ends). -/
def trimJS (s : LC) : LC :=
  ((s.dropWhile isSpaceChar).reverse.dropWhile isSpaceChar).reverse

/-- JS `str.split(/\s+/)`, one character at a time: `sep` records that
the previous character belonged to a separator run (so further whitespace
extends the same separator), `cur` is the current token reversed; the
current token is emitted at each separator start and at the end.  This
reproduces the JS edge cases: `"" → [""]`, a leading separator yields a
leading empty token, a trailing separator a trailing one. -/
def splitWsAux (sep : Bool) (cur : LC) : LC → List LC
  | [] => [cur.reverse]
  | c :: rest =>
    if isSpaceChar c then
      if sep then splitWsAux true cur rest
      else cur.reverse :: splitWsAux true [] rest
    else splitWsAux false (c :: cur) rest

def splitWsJS (s : LC) : List LC := splitWsAux false [] s

/-- Digit run to a natural number. -/
def digitsToNat (ds : LC) : ℕ :=
  ds.foldl (fun n d => 10 * n + (d.toNat - '0'.toNat)) 0

/-- Decimal digits of a natural number (auxiliary, counter = number). -/
def natDigitsAux : ℕ → ℕ → LC
  | _, 0 => []
  | n, fuel + 1 =>
    if n = 0 then []
    else natDigitsAux (n / 10) fuel ++ [Char.ofNat ('0'.toNat + n % 10)]

/-- Decimal digits of a natural number. -/
def natDigits (n : ℕ) : LC :=
  if n = 0 then ['0'] else natDigitsAux n (n + 1)

/-- Hexadecimal digits (lower case, as JS `toString(16)`). -/
def natHexAux : ℕ → ℕ → LC
  | _, 0 => []
  | n, fuel + 1 =>
    if n = 0 then []
    else
      natHexAux (n / 16) fuel ++
        [if n % 16 < 10 then Char.ofNat ('0'.toNat + n % 16)
         else Char.ofNat ('a'.toNat + (n % 16 - 10))]

/-- `n.toString(16)` for a natural number. -/
def natHex (n : ℕ) : LC :=
  if n = 0 then ['0'] else natHexAux n (n + 1)

/-- JavaScript numbers.  `none` is `NaN`; every number reaching the model
comes from a decimal literal, so a rational carries it exactly. -/
abbrev JSNum := Option ℚ

/-- The `Rat` arithmetic of Batteries (`Rat.add`, `Rat.mul`, `Rat.inv`,
`Rat.sub`) is `@[irreducible]`, which blocks `decide`-style evaluation;
the model therefore computes with these `mkRat`-based equivalents. -/
def qmul (a b : ℚ) : ℚ := mkRat (a.num * b.num) (a.den * b.den)

def qadd (a b : ℚ) : ℚ := mkRat (a.num * b.den + b.num * a.den) (a.den * b.den)

def qneg (a : ℚ) : ℚ := mkRat (-a.num) a.den

/-- `10^n` as a rational. -/
def qp10 (n : ℕ) : ℚ := ((10 ^ n : ℕ) : ℚ)

/-- `intPart.fracPart` as a rational, via `mkRat` (kernel-reducible,
unlike field division on `ℚ`). -/
def decValue (intPart fracPart : LC) : ℚ :=
  mkRat (digitsToNat intPart * 10 ^ fracPart.length + digitsToNat fracPart)
    (10 ^ fracPart.length)

/-- `q * 10^ex` for an integer exponent, without `ℚ` division. -/
def scalePow10 (q : ℚ) (ex : ℤ) : ℚ :=
  if 0 ≤ ex then qmul q (qp10 ex.toNat)
  else mkRat q.num (q.den * 10 ^ (-ex).toNat)

/-- Parse an unsigned decimal numeral `digits [. digits] [e[±]digits]`
starting at the head; returns the value and the rest.  The exponent is
consumed only when complete (as JS numeric parsing does). -/
def parseDecimal (s : LC) : Option (ℚ × LC) :=
  let intPart := s.takeWhile isDigitChar
  let afterInt := s.dropWhile isDigitChar
  let (fracPart, afterFrac) :=
    match afterInt with
    | '.' :: t =>
      let f := t.takeWhile isDigitChar
      if f = [] then (([] : LC), afterInt) else (f, t.dropWhile isDigitChar)
    | _ => (([] : LC), afterInt)
  if intPart = [] && fracPart = [] then none
  else
    let base : ℚ := decValue intPart fracPart
    let (val, rest) :=
      match afterFrac with
      | e :: t =>
        if e = 'e' || e = 'E' then
          let (sgn, t2) :=
            match t with
            | '+' :: t2 => ((1 : ℤ), t2)
            | '-' :: t2 => ((-1 : ℤ), t2)
            | _ => ((1 : ℤ), t)
          let ds := t2.takeWhile isDigitChar
          if ds = [] then (base, afterFrac)
          else
            let ex : ℤ := sgn * (digitsToNat ds : ℤ)
            (scalePow10 base ex, t2.dropWhile isDigitChar)
        else (base, afterFrac)
      | [] => (base, afterFrac)
    some (val, rest)

/-- JS `parseFloat`: skip leading whitespace, optional sign, then as much
of a numeral as possible; `NaN` when no digits are found. -/
def parseFloatJS (s : LC) : JSNum :=
  let t := s.dropWhile isSpaceChar
  let (isNeg, t2) : Bool × LC :=
    match t with
    | '+' :: r => (false, r)
    | '-' :: r => (true, r)
    | _ => (false, t)
  match parseDecimal t2 with
  | some (v, _) => some (if isNeg then qneg v else v)
  | none => none

/-- JS `Number(str)`: trims, the empty string is `0`, otherwise the whole
string must be a numeral (with optional sign), else `NaN`. -/
def jsNumber (s : LC) : JSNum :=
  let t := trimJS s
  match t with
  | [] => some 0
  | _ =>
    let (isNeg, t2) : Bool × LC :=
      match t with
      | '+' :: r => (false, r)
      | '-' :: r => (true, r)
      | _ => (false, t)
    match parseDecimal t2 with
    | some (v, []) => some (if isNeg then qneg v else v)
    | _ => none

/-- JS `Math.round` (half toward `+∞`). -/
def jsRound (q : ℚ) : ℤ := (qadd q (mkRat 1 2)).floor

/-- `toString` of an integer (decimal). -/
def intDecStr (i : ℤ) : LC :=
  if i < 0 then '-' :: natDigits i.natAbs else natDigits i.natAbs

/-- `toString(16)` of an integer, as JS produces it. -/
def intHexStr (i : ℤ) : LC :=
  if i < 0 then '-' :: natHex i.natAbs else natHex i.natAbs

/-- Find the least `k ≤ fuel` with `q * 10^k` integral (counter-bounded). -/
def decScaleAux (q : ℚ) : ℕ → ℕ → Option ℕ
  | _, 0 => none
  | k, fuel + 1 =>
    if (qmul q (qp10 k)).den = 1 then some k else decScaleAux q (k + 1) fuel

/-- JS `String(number)` on the rationals this pipeline produces: integers
print without a decimal point, other decimal fractions print with the
shortest decimal expansion (which is what IEEE shortest round-trip
printing shows for values parsed from such literals); `NaN` prints as
`NaN`. -/
def numToStr (n : JSNum) : LC :=
  match n with
  | none => ['N', 'a', 'N']
  | some q =>
    if q.den = 1 then intDecStr q.num
    else
      match decScaleAux q 1 40 with
      | some k =>
        let m := (qmul q (qp10 k)).num
        let ds := natDigits m.natAbs
        let ds := if ds.length ≤ k then List.replicate (k + 1 - ds.length) '0' ++ ds else ds
        let whole := ds.take (ds.length - k)
        let frac := ds.drop (ds.length - k)
        (if q.blt 0 then ['-'] else []) ++ whole ++ '.' :: frac
      | none => ['?']

/-- `String(n).padStart(2, '0')`. -/
def padStart2 (s : LC) : LC :=
  if s.length < 2 then List.replicate (2 - s.length) '0' ++ s else s

/-! ## Generic pattern scanners

Each definition below implements exactly one of the regular-expression
idioms of the TypeScript sources, at the character level. -/

/-- Match, at the current position, the pattern `kw\s+([cls]+)` and return
the captured text.  `\s+` is greedy; when the class run after the maximal
whitespace is empty, the engine backtracks `\s+` by one character, which
succeeds exactly when the class contains whitespace and at least two
whitespace characters are present (the capture is then the final
whitespace character). -/
def matchCapClassAt (kw : LC) (ci : Bool) (cls : Char → Bool) (s : LC) : Option LC :=
  if litAt ci kw s then
    let after := s.drop kw.length
    let ws := after.takeWhile isSpaceChar
    if ws = [] then none
    else
      let cap := (after.dropWhile isSpaceChar).takeWhile cls
      if cap ≠ [] then some cap
      else if 2 ≤ ws.length && cls (ws.getLast!) then some [ws.getLast!]
      else none
  else none

/-- First match of `kw\s+([cls]+)` in `s` (models `regex.exec(s)` for the
capture patterns such as `/diffuseColor\s+([\d\.\s]+)/`). -/
def execCapClass (kw : LC) (ci : Bool) (cls : Char → Bool) : LC → Option LC
  | [] => none
  | c :: rest =>
    match matchCapClassAt kw ci cls (c :: rest) with
    | some cap => some cap
    | none => execCapClass kw ci cls rest

/-- First match of `kw\s*\[([\s\S]*?)\]`: the lazy group runs up to the
first `]`. -/
def execBracketLazy (kw : LC) (ci : Bool) : LC → Option LC
  | [] => none
  | c :: rest =>
    let s := c :: rest
    let attempt : Option LC :=
      if litAt ci kw s then
        let after := (s.drop kw.length).dropWhile isSpaceChar
        match after with
        | '[' :: t =>
          let content := t.takeWhile (fun d => d ≠ ']')
          match t.dropWhile (fun d => d ≠ ']') with
          | ']' :: _ => some content
          | _ => none
        | _ => none
      else none
    match attempt with
    | some cap => some cap
    | none => execBracketLazy kw ci rest

/-- Match `kw\s*\{` at the current position; returns the number of
characters consumed (through the `{`). -/
def matchKwBraceAt (kw : LC) (ci : Bool) (s : LC) : Option ℕ :=
  if litAt ci kw s then
    let after := s.drop kw.length
    let ws := after.takeWhile isSpaceChar
    match after.dropWhile isSpaceChar with
    | '{' :: _ => some (kw.length + ws.length + 1)
    | _ => none
  else none

/-- All matches of `kw\s*\{` (global flag): returns the index just after
each `{`; scanning resumes right after the `{` of a match. -/
def scanKwBraceAux (kw : LC) (ci : Bool) : ℕ → ℕ → LC → List ℕ
  | _ + 1, _, [] => []
  | skip + 1, i, _ :: rest => scanKwBraceAux kw ci skip (i + 1) rest
  | 0, _, [] => []
  | 0, i, c :: rest =>
    match matchKwBraceAt kw ci (c :: rest) with
    | some len => (i + len) :: scanKwBraceAux kw ci (len - 1) (i + 1) rest
    | none => scanKwBraceAux kw ci 0 (i + 1) rest

def scanKwBrace (kw : LC) (ci : Bool) (s : LC) : List ℕ :=
  scanKwBraceAux kw ci 0 0 s

/-- First match of `kw\s*\{`: index just after the `{`. -/
def findKwBrace (kw : LC) (ci : Bool) : LC → Option ℕ :=
  fun s => (scanKwBrace kw ci s).head?

/-- Walk matching delimiters: starting inside a block at nesting depth
`d`, return the content up to (excluding) the delimiter closing the
block, together with the number of characters consumed (including that
closing delimiter).  `none` when the block never closes. -/
def delimWalk (opn cls : Char) : ℕ → LC → Option (LC × ℕ)
  | _, [] => none
  | d, c :: rest =>
    let d2 := if c = opn then d + 1 else if c = cls then d - 1 else d
    if d2 = 0 then some ([], 1)
    else
      match delimWalk opn cls d2 rest with
      | some (content, k) => some (c :: content, k + 1)
      | none => none

def braceWalk : ℕ → LC → Option (LC × ℕ) := delimWalk '{' '}'

def bracketWalk : ℕ → LC → Option (LC × ℕ) := delimWalk '[' ']'

/-- Match `DEF\s+\w+\s+` at the current position; returns the length. -/
def matchDEFAt (s : LC) : Option ℕ :=
  if litAt false ['D', 'E', 'F'] s then
    let a1 := s.drop 3
    let ws1 := a1.takeWhile isSpaceChar
    if ws1 = [] then none
    else
      let a2 := a1.dropWhile isSpaceChar
      let nm := a2.takeWhile isWordChar
      if nm = [] then none
      else
        let a3 := a2.dropWhile isWordChar
        let ws2 := a3.takeWhile isSpaceChar
        if ws2 = [] then none
        else some (3 + ws1.length + nm.length + ws2.length)
  else none

/-- `text.replace(/DEF\s+\w+\s+/g, '')`. -/
def removeDEFAux : ℕ → LC → LC
  | _ + 1, [] => []
  | skip + 1, _ :: rest => removeDEFAux skip rest
  | 0, [] => []
  | 0, c :: rest =>
    match matchDEFAt (c :: rest) with
    | some len => removeDEFAux (len - 1) rest
    | none => c :: removeDEFAux 0 rest

def removeDEF (s : LC) : LC := removeDEFAux 0 s

/-- All matches of `Group\s*\{([^}]*(?:\{[^}]*\}[^}]*)*)\}`: since `[^}]`
also accepts `{`, the greedy first group runs to the first `}` and the
inner alternative can never start, so each match captures the text up to
the first `}` after `Group\s*{`.  Returns the captured contents in order;
scanning resumes after the closing `}` of a match. -/
def matchGroupAt (s : LC) : Option (LC × ℕ) :=
  if litAt false ['G', 'r', 'o', 'u', 'p'] s then
    let after := s.drop 5
    let ws := after.takeWhile isSpaceChar
    match after.dropWhile isSpaceChar with
    | '{' :: t =>
      let content := t.takeWhile (fun d => d ≠ '}')
      match t.dropWhile (fun d => d ≠ '}') with
      | '}' :: _ => some (content, 5 + ws.length + 1 + content.length + 1)
      | _ => none
    | _ => none
  else none

def scanGroupAux : ℕ → LC → List LC
  | _ + 1, [] => []
  | skip + 1, _ :: rest => scanGroupAux skip rest
  | 0, [] => []
  | 0, c :: rest =>
    match matchGroupAt (c :: rest) with
    | some (content, len) => content :: scanGroupAux (len - 1) rest
    | none => scanGroupAux 0 rest

def scanGroups (s : LC) : List LC := scanGroupAux 0 s

/-! ## `protoParser.ts` — data model -/

/-- Tagged field value (`defaultValue`/override values are `any` in the
source; they are always a number, an array of numbers, or a raw string). -/
inductive JSValue where
  | num (n : JSNum)
  | arr (l : List JSNum)
  | str (s : LC)
deriving DecidableEq, Repr

/-- `ProtoField` of `protoParser.ts` (the `type` keeps its string form). -/
structure ProtoField where
  name : LC
  type : LC
  defaultValue : JSValue
deriving DecidableEq, Repr

/-- `ProtoDefinition` of `protoParser.ts`. -/
structure ProtoDefinition where
  name : LC
  fields : List ProtoField
  body : LC
deriving DecidableEq, Repr

/-- Association-list lookup (JS `Map.get`). -/
def assocLookup {β : Type} : List (LC × β) → LC → Option β
  | [], _ => none
  | (k2, v) :: rest, k => if k2 = k then some v else assocLookup rest k

/-- JS `Map.set`: replace in place or append. -/
def assocSet {β : Type} (m : List (LC × β)) (k : LC) (v : β) : List (LC × β) :=
  match m with
  | [] => [(k, v)]
  | (k2, v2) :: rest => if k2 = k then (k, v) :: rest else (k2, v2) :: assocSet rest k v

/-- JS `Map.has`. -/
def assocHas {β : Type} (m : List (LC × β)) (k : LC) : Bool :=
  (assocLookup m k).isSome

/-- The `ProtoRegistry` class is a wrapper around a `Map`;
its `register` is `assocSet`, `lookup` is `assocLookup`, `has` is
`assocHas`, `clear` returns `[]`. -/
abbrev ProtoRegistry := List (LC × ProtoDefinition)

/-! ## `protoParser.ts` — field declarations -/

/-- `parseFieldValue(type, valueStr)`: type-directed value parsing.  The
source never throws here (`parseFloat`, `split`, `map` are total), so the
`catch` fallback in `parseProtoFields` is unreachable. -/
def parseFieldValue (ty : LC) (valueStr : LC) : JSValue :=
  let trimmed := trimJS valueStr
  if ty = "SFFloat".data then .num (parseFloatJS trimmed)
  else if ty = "SFVec3f".data then .arr (((splitWsJS trimmed).map jsNumber).take 3)
  else if ty = "SFRotation".data then .arr (((splitWsJS trimmed).map jsNumber).take 4)
  else if ty = "SFColor".data then .arr (((splitWsJS trimmed).map jsNumber).take 3)
  else if ty = "SFNode".data || ty = "MFNode".data then .str trimmed
  else .str trimmed

/-- The six type tags, in the alternation order of the field pattern. -/
def fieldTypeTags : List LC :=
  ["SFFloat".data, "SFVec3f".data, "SFRotation".data, "SFColor".data,
   "SFNode".data, "MFNode".data]

/-- The lookahead `(?=\s*(?:field|$))` of the field pattern. -/
def fieldLookahead (rest : LC) : Bool :=
  let j := rest.dropWhile isSpaceChar
  j.isEmpty || litAt false "field".data j

/-- Lazy growth of the `([^\n]+?)` value group: add one character at a
time (never a newline) until the lookahead holds. -/
def valueScan (acc : LC) : LC → Option (LC × LC)
  | [] => none
  | c :: rest =>
    if c = '\n' then none
    else
      let acc2 := acc ++ [c]
      if fieldLookahead rest then some (acc2, rest) else valueScan acc2 rest

/-- Backtracking of the greedy `\s+` before the value group: try the
longest whitespace run first, then shorter ones (at least one character).
Returns the value, the rest, and how much whitespace `\s+` kept. -/
def ws3Search (ws3 afterWs3 : LC) : ℕ → Option (LC × LC × ℕ)
  | 0 => none
  | k + 1 =>
    match valueScan [] (ws3.drop (k + 1) ++ afterWs3) with
    | some (v, rest) => some (v, rest, k + 1)
    | none => ws3Search ws3 afterWs3 k

/-- Try the six type tags in alternation order as literal prefixes. -/
def matchTypeTag (s : LC) : Option LC :=
  fieldTypeTags.find? (fun tag => litAt false tag s)

/-- Match, at the current position, one clause of
`field\s+(<6 tags>)\s+(\w+)\s+([^\n]+?)(?=\s*(?:field|$))`; returns
`(type, name, value, length of the whole match)`. -/
def matchFieldDeclAt (s : LC) : Option (LC × LC × LC × ℕ) :=
  if litAt false "field".data s then
    let a1 := s.drop 5
    let ws1 := a1.takeWhile isSpaceChar
    if ws1 = [] then none
    else
      let a2 := a1.dropWhile isSpaceChar
      match matchTypeTag a2 with
      | none => none
      | some ty =>
        let a3 := a2.drop ty.length
        let ws2 := a3.takeWhile isSpaceChar
        if ws2 = [] then none
        else
          let a4 := a3.dropWhile isSpaceChar
          let nm := a4.takeWhile isWordChar
          if nm = [] then none
          else
            let a5 := a4.dropWhile isWordChar
            let ws3 := a5.takeWhile isSpaceChar
            if ws3 = [] then none
            else
              match ws3Search ws3 (a5.dropWhile isSpaceChar) ws3.length with
              | none => none
              | some (v, _, ws3used) =>
                some (ty, nm, v,
                  5 + ws1.length + ty.length + ws2.length + nm.length + ws3used + v.length)
  else none

/-- Global scan of the field pattern; resumes after each match. -/
def scanFieldDeclsAux : ℕ → LC → List (LC × LC × LC)
  | _ + 1, [] => []
  | skip + 1, _ :: rest => scanFieldDeclsAux skip rest
  | 0, [] => []
  | 0, c :: rest =>
    match matchFieldDeclAt (c :: rest) with
    | some (ty, nm, v, len) => (ty, nm, v) :: scanFieldDeclsAux (len - 1) rest
    | none => scanFieldDeclsAux 0 rest

/-- `parseProtoFields(fieldText)`.  The `try`/`catch` around
`parseFieldValue` is kept in the source but `parseFieldValue` is total,
so the zero-default branch of the `catch` never executes. -/
def parseProtoFields (fieldText : LC) : List ProtoField :=
  (scanFieldDeclsAux 0 fieldText).map
    (fun t => ⟨t.2.1, t.1, parseFieldValue t.1 (trimJS t.2.2)⟩)

/-- `parseProtoDefinition(name, fieldText, bodyText)` (its `catch` is
likewise unreachable, so it never returns `null`). -/
def parseProtoDefinition (name fieldText bodyText : LC) : ProtoDefinition :=
  ⟨name, parseProtoFields fieldText, trimJS bodyText⟩

/-! ## `protoParser.ts` — block extraction -/

/-- Match `PROTO\s+(\w+)\s*\[` at the current position; returns the PROTO
name and the length of the match (through the `[`). -/
def matchProtoHeadAt (s : LC) : Option (LC × ℕ) :=
  if litAt false "PROTO".data s then
    let a1 := s.drop 5
    let ws1 := a1.takeWhile isSpaceChar
    if ws1 = [] then none
    else
      let a2 := a1.dropWhile isSpaceChar
      let nm := a2.takeWhile isWordChar
      if nm = [] then none
      else
        let a3 := a2.dropWhile isWordChar
        let ws2 := a3.takeWhile isSpaceChar
        match a3.dropWhile isSpaceChar with
        | '[' :: _ => some (nm, 5 + ws1.length + nm.length + ws2.length + 1)
        | _ => none
  else none

/-- Global scan for PROTO heads: `(start index, name, index after '[')`. -/
def scanProtoHeadsAux : ℕ → ℕ → LC → List (ℕ × LC × ℕ)
  | _ + 1, _, [] => []
  | skip + 1, i, _ :: rest => scanProtoHeadsAux skip (i + 1) rest
  | 0, _, [] => []
  | 0, i, c :: rest =>
    match matchProtoHeadAt (c :: rest) with
    | some (nm, len) => (i, nm, i + len) :: scanProtoHeadsAux (len - 1) (i + 1) rest
    | none => scanProtoHeadsAux 0 (i + 1) rest

/-- An extracted block: full span `[start, stop)` plus its definition. -/
structure ProtoBlock where
  start : ℕ
  stop : ℕ
  definition : ProtoDefinition
deriving Repr

/-- Stable insertion sort by descending `start`
(JS `sort((a, b) => b.start - a.start)`). -/
def insertBlockDesc (b : ProtoBlock) : List ProtoBlock → List ProtoBlock
  | [] => [b]
  | b2 :: rest =>
    if b2.start < b.start then b :: b2 :: rest else b2 :: insertBlockDesc b rest

def sortBlocksDesc (l : List ProtoBlock) : List ProtoBlock :=
  l.foldr insertBlockDesc []

/-- Process one PROTO head into a block (the per-block error paths of the
source skip the block: unmatched `]`, missing `{`, unmatched `}`). -/
def protoBlockOfHead (t : LC) (h : ℕ × LC × ℕ) : Option ProtoBlock :=
  match bracketWalk 1 (t.drop h.2.2) with
  | none => none
  | some (fieldText, k) =>
    let fieldsEnd := h.2.2 + k
    let tail := t.drop fieldsEnd
    let pre := tail.takeWhile (fun d => d ≠ '{')
    match tail.dropWhile (fun d => d ≠ '{') with
    | [] => none
    | _ :: afterBrace =>
      match braceWalk 1 afterBrace with
      | none => none
      | some (bodyText, k2) =>
        let bodyStart := fieldsEnd + pre.length
        some ⟨h.1, bodyStart + 1 + k2, parseProtoDefinition h.2.1 fieldText bodyText⟩

/-- `extractProtoBlocks(vrmlText)`: returns the definitions (in scan
order) and the text with every extracted block removed, the removals
applied in descending start order. -/
def extractProtoBlocks (vrmlText : LC) : List ProtoDefinition × LC :=
  let blocks := (scanProtoHeadsAux 0 0 vrmlText).filterMap (protoBlockOfHead vrmlText)
  let cleaned := (sortBlocksDesc blocks).foldl
    (fun txt b => txt.take b.start ++ txt.drop b.stop) vrmlText
  (blocks.map (fun b => b.definition), cleaned)

/-! ## `protoParser.ts` — IS binding resolution -/

/-- One match of `(\w+)\s+IS\s+(\w+)`: the property token, the field
name, and the full matched text. -/
structure ISMatch where
  prop : LC
  fld : LC
  orig : LC
deriving DecidableEq, Repr

/-- Match `(\w+)\s+IS\s+(\w+)` at the current position.  Both `\w+` runs
and both `\s+` runs are maximal (the classes are disjoint, so greedy
matching cannot backtrack into them). -/
def matchISAt (s : LC) : Option ISMatch :=
  let w1 := s.takeWhile isWordChar
  if w1 = [] then none
  else
    let r1 := s.dropWhile isWordChar
    let s1 := r1.takeWhile isSpaceChar
    if s1 = [] then none
    else
      match r1.dropWhile isSpaceChar with
      | 'I' :: 'S' :: r3 =>
        let s2 := r3.takeWhile isSpaceChar
        if s2 = [] then none
        else
          let w2 := (r3.dropWhile isSpaceChar).takeWhile isWordChar
          if w2 = [] then none
          else some ⟨w1, w2, w1 ++ s1 ++ 'I' :: 'S' :: (s2 ++ w2)⟩
      | _ => none

/-- Global scan for IS bindings; resumes after each match. -/
def scanISAux : ℕ → LC → List ISMatch
  | _ + 1, [] => []
  | skip + 1, _ :: rest => scanISAux skip rest
  | 0, [] => []
  | 0, c :: rest =>
    match matchISAt (c :: rest) with
    | some m => m :: scanISAux (m.orig.length - 1) rest
    | none => scanISAux 0 rest

def scanIS (s : LC) : List ISMatch := scanISAux 0 s

/-- `formatFieldValue(value)`. -/
def joinSpace : List LC → LC
  | [] => []
  | [x] => x
  | x :: y :: rest => x ++ ' ' :: joinSpace (y :: rest)

def formatFieldValue : JSValue → LC
  | .arr l => joinSpace (l.map numToStr)
  | .num n => numToStr n
  | .str s => s

/-- The replacement pair the resolver builds for one match: a present
field yields `property formattedValue`, an absent field keeps the
original text. -/
def mkISReplacement (fieldValues : List (LC × JSValue)) (m : ISMatch) : LC × LC :=
  match assocLookup fieldValues m.fld with
  | some v => (m.orig, m.prop ++ ' ' :: formatFieldValue v)
  | none => (m.orig, m.orig)

/-- The trailing `\b` of `new RegExp(escapeRegExp(original) + '\\b')`:
a word boundary between the last character of the matched text and the
following character (or the end of the string). -/
def boundaryAfter (x rest : LC) : Bool :=
  match x.getLast?, rest.head? with
  | some l, some n => isWordChar l != isWordChar n
  | some l, none => isWordChar l
  | none, _ => false

/-- One global `String.replace` with pattern `escaped(x) + '\b'`:
scan the input left to right; at a match emit `r` and resume after the
matched span (replacements are not rescanned, as in JS). -/
def rabAux (x r : LC) : ℕ → LC → LC
  | _ + 1, [] => []
  | skip + 1, _ :: rest => rabAux x r skip rest
  | 0, [] => []
  | 0, c :: rest =>
    if !x.isEmpty && litAt false x (c :: rest) && boundaryAfter x ((c :: rest).drop x.length)
    then r ++ rabAux x r (x.length - 1) rest
    else c :: rabAux x r 0 rest

def replaceAllBound (s x r : LC) : LC := rabAux x r 0 s

/-- `resolveISBindings(bodyTemplate, fieldValues)`: collect all matches,
build their replacements, then apply them in order with global
boundary-suffixed replaces.  (The `protoName` parameter of the source is
only used for logging.) -/
def resolveISBindings (bodyTemplate : LC) (fieldValues : List (LC × JSValue)) : LC :=
  let replacements := (scanIS bodyTemplate).map (mkISReplacement fieldValues)
  replacements.foldl (fun s p => replaceAllBound s p.1 p.2) bodyTemplate

/-! ## `protoParser.ts` — instances and expansion -/

structure ProtoInstance where
  protoName : LC
  fieldValues : List (LC × JSValue)
  startIndex : ℕ
  endIndex : ℕ
deriving DecidableEq, Repr

/-- Match one numeral `[-+]?\d*\.?\d+(?:[eE][-+]?\d+)?` at the current
position; returns its `parseFloat` value and its length.  (Greedy
matching with the one backtracking case that matters: a dot not followed
by a digit is left unconsumed.  Deeper backtracking into the mantissa
can only occur on inputs where the overall field pattern fails either
way.) -/
def matchNumAt (s : LC) : Option (ℚ × ℕ) :=
  let (isNeg, off, t) : Bool × ℕ × LC :=
    match s with
    | '+' :: r => (false, 1, r)
    | '-' :: r => (true, 1, r)
    | _ => (false, 0, s)
  let ds := t.takeWhile isDigitChar
  let t2 := t.dropWhile isDigitChar
  let mant : Option (ℚ × ℕ × LC) :=
    match t2 with
    | '.' :: t3 =>
      let fs := t3.takeWhile isDigitChar
      if fs = [] then
        if ds = [] then none
        else some ((digitsToNat ds : ℚ), ds.length, t2)
      else
        some (decValue ds fs, ds.length + 1 + fs.length, t3.dropWhile isDigitChar)
    | _ =>
      if ds = [] then none else some ((digitsToNat ds : ℚ), ds.length, t2)
  match mant with
  | none => none
  | some (v, len, after) =>
    let (v2, len2) : ℚ × ℕ :=
      match after with
      | e :: t4 =>
        if e = 'e' || e = 'E' then
          let (esgn, soff, t5) : ℤ × ℕ × LC :=
            match t4 with
            | '+' :: r => (1, 1, r)
            | '-' :: r => (-1, 1, r)
            | _ => (1, 0, t4)
          let eds := t5.takeWhile isDigitChar
          if eds = [] then (v, len)
          else (scalePow10 v (esgn * (digitsToNat eds : ℤ)), len + 1 + soff + eds.length)
        else (v, len)
      | [] => (v, len)
    some (if isNeg then qneg v2 else v2, off + len2)

/-- `arity` numerals, each preceded by `\s+`. -/
def numsLoop : ℕ → LC → Option (List ℚ)
  | 0, _ => some []
  | n + 1, t =>
    let ws := t.takeWhile isSpaceChar
    if ws = [] then none
    else
      let t2 := t.dropWhile isSpaceChar
      match matchNumAt t2 with
      | some (v, len) => (numsLoop n (t2.drop len)).map (fun vs => v :: vs)
      | none => none

/-- First (non-global) match of `fieldName(\s+number){arity}` with the
`i` flag, as built by `parseProtoInstanceFields`. -/
def searchFieldNums (name : LC) (arity : ℕ) : LC → Option (List ℚ)
  | [] => none
  | c :: rest =>
    match
      (if litAt true name (c :: rest)
       then numsLoop arity ((c :: rest).drop name.length) else none) with
    | some vs => some vs
    | none => searchFieldNums name arity rest

/-- `parseProtoInstanceFields(protoName, bodyText, registry)`. -/
def parseProtoInstanceFields (protoName bodyText : LC) (registry : ProtoRegistry) :
    List (LC × JSValue) :=
  match assocLookup registry protoName with
  | none => []
  | some dfn =>
    dfn.fields.foldl
      (fun fv field =>
        if field.type = "SFFloat".data then
          match searchFieldNums field.name 1 bodyText with
          | some [v] => assocSet fv field.name (.num (some v))
          | _ => fv
        else if field.type = "SFVec3f".data || field.type = "SFColor".data then
          match searchFieldNums field.name 3 bodyText with
          | some vs => assocSet fv field.name (.arr (vs.map some))
          | none => fv
        else if field.type = "SFRotation".data then
          match searchFieldNums field.name 4 bodyText with
          | some vs => assocSet fv field.name (.arr (vs.map some))
          | none => fv
        else fv)
      []

/-- Match `(\w+)\s*\{` at the current position: instance-head pattern.
Returns the identifier and the length through the `{`. -/
def matchInstHeadAt (s : LC) : Option (LC × ℕ) :=
  let w := s.takeWhile isWordChar
  if w = [] then none
  else
    let a := s.dropWhile isWordChar
    let ws := a.takeWhile isSpaceChar
    match a.dropWhile isSpaceChar with
    | '{' :: _ => some (w, w.length + ws.length + 1)
    | _ => none

/-- `parseProtoInstances(vrmlText, registry)`: global scan; whether or not
a head is accepted, scanning resumes right after its `{`. -/
def scanInstancesAux (registry : ProtoRegistry) : ℕ → ℕ → LC → List ProtoInstance
  | _ + 1, _, [] => []
  | skip + 1, i, _ :: rest => scanInstancesAux registry skip (i + 1) rest
  | 0, _, [] => []
  | 0, i, c :: rest =>
    match matchInstHeadAt (c :: rest) with
    | some (name, len) =>
      if assocHas registry name then
        match braceWalk 1 ((c :: rest).drop len) with
        | some (inner, k) =>
          ⟨name, parseProtoInstanceFields name inner registry, i, i + len + k⟩ ::
            scanInstancesAux registry (len - 1) (i + 1) rest
        | none => scanInstancesAux registry (len - 1) (i + 1) rest
      else scanInstancesAux registry (len - 1) (i + 1) rest
    | none => scanInstancesAux registry 0 (i + 1) rest

def parseProtoInstances (vrmlText : LC) (registry : ProtoRegistry) : List ProtoInstance :=
  scanInstancesAux registry 0 0 vrmlText

/-- Merge of instance overrides with declaration defaults, in field
order: an override wins per field, otherwise the default is used. -/
def mergeFieldValues (fields : List ProtoField) (fieldValues : List (LC × JSValue)) :
    List (LC × JSValue) :=
  fields.foldl
    (fun m f =>
      assocSet m f.name
        (match assocLookup fieldValues f.name with
         | some v => v
         | none => f.defaultValue))
    []

/-- `expandProto(instance, registry)`: the empty string doubles as the
failure result for an undefined PROTO. -/
def expandProto (instance_ : ProtoInstance) (registry : ProtoRegistry) : LC :=
  match assocLookup registry instance_.protoName with
  | none => []
  | some dfn =>
    resolveISBindings dfn.body (mergeFieldValues dfn.fields instance_.fieldValues)

/-- `hasProtoInstances(vrmlText, registry)`. -/
def hasProtoAux (registry : ProtoRegistry) : ℕ → LC → Bool
  | _ + 1, [] => false
  | skip + 1, _ :: rest => hasProtoAux registry skip rest
  | 0, [] => false
  | 0, c :: rest =>
    match matchInstHeadAt (c :: rest) with
    | some (name, len) =>
      if assocHas registry name then true
      else hasProtoAux registry (len - 1) rest
    | none => hasProtoAux registry 0 rest

def hasProtoInstances (vrmlText : LC) (registry : ProtoRegistry) : Bool :=
  hasProtoAux registry 0 vrmlText

/-- Stable insertion sort of instances by descending `startIndex`. -/
def insertInstDesc (a : ProtoInstance) : List ProtoInstance → List ProtoInstance
  | [] => [a]
  | b :: rest =>
    if b.startIndex < a.startIndex then a :: b :: rest else b :: insertInstDesc a rest

def sortInstDesc (l : List ProtoInstance) : List ProtoInstance :=
  l.foldr insertInstDesc []

/-- The replacement loop of one `expandAllProtos` pass: instances sorted
by descending start, each replaced by its expansion unless that
expansion is the empty string (which the source treats as failure and
skips). -/
def applyInstances (t : LC) (instances : List ProtoInstance) (registry : ProtoRegistry) : LC :=
  (sortInstDesc instances).foldl
    (fun txt inst =>
      let expanded := expandProto inst registry
      if expanded.isEmpty then txt
      else txt.take inst.startIndex ++ expanded ++ txt.drop inst.endIndex)
    t

/-- The recursion of `expandAllProtos(vrmlText, registry, maxDepth,
currentDepth)`, driven by the remaining depth `maxDepth - currentDepth`:
zero remaining depth is the `currentDepth >= maxDepth` guard (return the
text as is), and the recursive call at `currentDepth + 1` has one less
remaining level. -/
def expandPasses (registry : ProtoRegistry) : ℕ → LC → LC
  | 0, t => t
  | n + 1, t =>
    let instances := parseProtoInstances t registry
    if instances.isEmpty then t
    else
      let t2 := applyInstances t instances registry
      if hasProtoInstances t2 registry then expandPasses registry n t2 else t2

/-- `expandAllProtos` with the source's signature (`maxDepth` defaults to
10 at every call site). -/
def expandAllProtos (vrmlText : LC) (registry : ProtoRegistry)
    (maxDepth currentDepth : ℕ) : LC :=
  expandPasses registry (maxDepth - currentDepth) vrmlText

/-! ## `vrmlParser.ts` -/

/-- The `[\d\.\s]` class. -/
def clsNumWs (c : Char) : Bool := isDigitChar c || c = '.' || isSpaceChar c

/-- The `[\d\.]` class. -/
def clsNum (c : Char) : Bool := isDigitChar c || c = '.'

/-- The `[\d\.\-\s]` class. -/
def clsNumMinusWs (c : Char) : Bool := isDigitChar c || c = '.' || c = '-' || isSpaceChar c

/-- `rgbToHex(r, g, b)`: `Math.round(n * 255).toString(16).padStart(2, '0')`
per channel, prefixed with `#`. -/
def rgbToHex (r g b : ℚ) : LC :=
  let toHex := fun (n : ℚ) => padStart2 (intHexStr (jsRound (qmul n (((255 : ℕ) : ℚ)))))
  '#' :: (toHex r ++ toHex g ++ toHex b)

/-- `value || 0` on an optional JS number (`NaN`, `0` and `undefined` are
falsy, so the result is always an actual rational). -/
def jsOrZero (x : Option JSNum) : ℚ :=
  match x with
  | some (some q) => q
  | _ => 0

/-- `value || 1` (used for the Box size components). -/
def jsOrOne (x : Option JSNum) : ℚ :=
  match x with
  | some (some q) => if q = 0 then 1 else q
  | _ => 1

/-- The `geometry` tag of a `Shape`. -/
inductive GeomKind where
  | box | sphere | cylinder | cone | mesh | lines
deriving DecidableEq, Repr

/-- The `Shape` record of `types.ts` (optional attributes are `Option`,
absent object keys are `none`). -/
structure Shape where
  position : List JSNum
  rotation : Option (List JSNum) := none
  scale : Option (List JSNum) := none
  color : LC
  emissiveColor : Option LC := none
  transparency : Option JSNum := none
  geometry : GeomKind
  size : Option (List ℚ) := none
  radius : Option JSNum := none
  height : Option JSNum := none
  vertices : Option (List ℚ) := none
  indices : Option (List ℚ) := none
deriving DecidableEq, Repr

structure SceneData where
  shapes : List Shape
deriving DecidableEq, Repr

/-- The default teal `'#4CC3D9'`. -/
def tealColor : LC := "#4CC3D9".data

/-- Capture text → RGB triple → hex color, as the diffuse/emissive
branches do (`rgb[i] || 0`). -/
def rgbOfCapture (cap : LC) : LC :=
  let rgb := (splitWsJS (trimJS cap)).map jsNumber
  rgbToHex (jsOrZero rgb[0]?) (jsOrZero rgb[1]?) (jsOrZero rgb[2]?)

/-- `point [...]`/`coordIndex [...]` content → flattened numbers:
commas to spaces, trim, split, `Number`, drop `NaN`s. -/
def numberListOf (content : LC) : List ℚ :=
  ((splitWsJS (trimJS (content.map (fun c => if c = ',' then ' ' else c)))).map
    jsNumber).reduceOption

/-- Consecutive-pair expansion of one line strip
(`for i in 0..len-2: push strip[i], strip[i+1]`). -/
def stripPairs : List ℚ → List ℚ
  | a :: b :: rest => a :: b :: stripPairs (b :: rest)
  | _ => []

/-- The `-1`-separated strip loop of the IndexedLineSet branch; a
trailing strip without the sentinel is discarded with the loop. -/
def lineLoop (strip : List ℚ) : List ℚ → List ℚ
  | [] => []
  | i :: rest =>
    if i = -1 then stripPairs strip ++ lineLoop [] rest
    else lineLoop (strip ++ [i]) rest

def lineIndicesOf (raw : List ℚ) : List ℚ := lineLoop [] raw

/-- Fan triangulation of one face (`for i in 1..len-2: push f0, f[i],
f[i+1]`). -/
def fanAux (f0 : ℚ) : List ℚ → List ℚ
  | a :: b :: rest => f0 :: a :: b :: fanAux f0 (b :: rest)
  | _ => []

def fanTriangles : List ℚ → List ℚ
  | [] => []
  | f0 :: rest => fanAux f0 rest

/-- The `-1`-separated face loop of the IndexedFaceSet branch (faces of
length `< 3` produce nothing; a trailing face without the sentinel is
discarded). -/
def faceLoop (face : List ℚ) : List ℚ → List ℚ
  | [] => []
  | i :: rest =>
    if i = -1 then
      (if 3 ≤ face.length then fanTriangles face else []) ++ faceLoop [] rest
    else faceLoop (face ++ [i]) rest

def faceIndicesOf (raw : List ℚ) : List ℚ := faceLoop [] raw

/-- `parseShapeNode(content, defaultPosition)`. -/
def parseShapeNode (content : LC) (defaultPosition : List JSNum) : Option Shape :=
  let color :=
    match execCapClass "diffuseColor".data false clsNumWs content with
    | some cap => rgbOfCapture cap
    | none => tealColor
  let emissiveColor :=
    (execCapClass "emissiveColor".data false clsNumWs content).map rgbOfCapture
  let transparency :=
    (execCapClass "transparency".data false clsNum content).map parseFloatJS
  if containsLit true "IndexedLineSet".data content then
    let vertices :=
      match execBracketLazy "point".data true content with
      | some cap => numberListOf cap
      | none => []
    let indices :=
      match execBracketLazy "coordIndex".data true content with
      | some cap => lineIndicesOf (numberListOf cap)
      | none => []
    some { position := defaultPosition, color, emissiveColor, transparency,
           geometry := .lines, vertices := some vertices, indices := some indices }
  else if containsLit true "IndexedFaceSet".data content then
    let vertices :=
      match execBracketLazy "point".data true content with
      | some cap => numberListOf cap
      | none => []
    let indices :=
      match execBracketLazy "coordIndex".data true content with
      | some cap => faceIndicesOf (numberListOf cap)
      | none => []
    some { position := defaultPosition, color, emissiveColor, transparency,
           geometry := .mesh, vertices := some vertices, indices := some indices }
  else if containsLit true "Sphere".data content then
    let radius :=
      match execCapClass "radius".data true clsNum content with
      | some cap => parseFloatJS cap
      | none => some 1
    some { position := defaultPosition, color, emissiveColor, transparency,
           geometry := .sphere, radius := some radius }
  else if containsLit true "Box".data content then
    let size :=
      match execCapClass "size".data true clsNumWs content with
      | some cap =>
        let dims := (splitWsJS (trimJS cap)).map jsNumber
        some [jsOrOne dims[0]?, jsOrOne dims[1]?, jsOrOne dims[2]?]
      | none => none
    some { position := defaultPosition, color, emissiveColor, transparency,
           geometry := .box, size }
  else if containsLit true "Cylinder".data content then
    let radius :=
      match execCapClass "radius".data true clsNum content with
      | some cap => parseFloatJS cap
      | none => some 1
    let height :=
      match execCapClass "height".data true clsNum content with
      | some cap => parseFloatJS cap
      | none => some 2
    some { position := defaultPosition, color, emissiveColor, transparency,
           geometry := .cylinder, radius := some radius, height := some height }
  else if containsLit true "Cone".data content then
    let radius :=
      match execCapClass "bottomRadius".data true clsNum content with
      | some cap => parseFloatJS cap
      | none => some 1
    let height :=
      match execCapClass "height".data true clsNum content with
      | some cap => parseFloatJS cap
      | none => some 2
    some { position := defaultPosition, color, emissiveColor, transparency,
           geometry := .cone, radius := some radius, height := some height }
  else none

/-- Capture of `translation`/`rotation`/`scale` values:
`.trim().split(/\s+/).map(Number).slice(0, 3)`. -/
def vec3OfCapture (cap : LC) : List JSNum :=
  (((splitWsJS (trimJS cap)).map jsNumber).take 3)

/-- The body of the Transform loop on one brace-matched Transform
content: extract translation/rotation/scale, find the first nested
`Shape\s*{` (case-insensitively), parse its brace-matched content at the
transform's position, then attach rotation and scale. -/
def processTransform (transformContent : LC) : Option Shape :=
  let position :=
    match execCapClass "translation".data false clsNumMinusWs transformContent with
    | some cap => vec3OfCapture cap
    | none => [some 0, some 0, some 0]
  let rotation :=
    (execCapClass "rotation".data false clsNumMinusWs transformContent).map vec3OfCapture
  let scale :=
    (execCapClass "scale".data false clsNumMinusWs transformContent).map vec3OfCapture
  match findKwBrace "Shape".data true transformContent with
  | none => none
  | some shapeStart =>
    match braceWalk 1 (transformContent.drop shapeStart) with
    | none => none
    | some (shapeContent, _) =>
      (parseShapeNode shapeContent position).map
        (fun sh => { sh with rotation := rotation, scale := scale })

/-- The scene-node extraction of `parseVRML` after preprocessing: DEF
removal, then the Transform loop, the Group loop and the standalone
Shape loop, in source order. -/
def parseVRMLCore (vrmlText : LC) : List Shape :=
  let cleanedText := removeDEF vrmlText
  let transformShapes :=
    (scanKwBrace "Transform".data false cleanedText).filterMap
      (fun startIdx =>
        match braceWalk 1 (cleanedText.drop startIdx) with
        | some (transformContent, _) => processTransform transformContent
        | none => none)
  let groupShapes :=
    (scanGroups cleanedText).filterMap
      (fun groupContent => parseShapeNode groupContent [some 0, some 0, some 0])
  let shapeShapes :=
    (scanKwBrace "Shape".data false cleanedText).filterMap
      (fun startIdx =>
        match braceWalk 1 (cleanedText.drop startIdx) with
        | some (shapeContent, _) => parseShapeNode shapeContent [some 0, some 0, some 0]
        | none => none)
  transformShapes ++ groupShapes ++ shapeShapes

/-- The PROTO preprocessing block of `parseVRML` (the `try` body):
extract and register all PROTO definitions, then expand all instances
with the default depth ceiling of 10.  None of its operations can fail,
so it always returns `ok`. -/
def protoPreprocessE (vrmlText : LC) : Except LC LC :=
  let extracted := extractProtoBlocks vrmlText
  let registry := extracted.1.foldl (fun m p => assocSet m p.name p) []
  Except.ok (expandAllProtos extracted.2 registry 10 0)

/-- The text `parseVRML` goes on to parse: the preprocessed text, or the
original text when preprocessing raised (the `catch` branch). -/
def preprocessedText (vrmlText : LC) : LC :=
  match protoPreprocessE vrmlText with
  | Except.ok expanded => expanded
  | Except.error _ => vrmlText

/-- The fallback demo cube. -/
def defaultShape : Shape :=
  { position := [some 0, some 0, some 0], color := tealColor, geometry := .box }

/-- `parseVRML(vrmlText)`. -/
def parseVRML (vrmlText : LC) : SceneData :=
  let shapes := parseVRMLCore (preprocessedText vrmlText)
  ⟨if shapes.isEmpty then [defaultShape] else shapes⟩

/-! ## Assoc-list lemmas (shared) -/

set_option maxRecDepth 100000

/-! ## Concrete inputs of the claims -/

/-- The end-to-end example input of the spec (claim C1). -/
def c1Input : LC :=
  ("Transform { translation 1 2 3 children [ Shape { geometry Box { size 2 2 2 } appearance Appearance { material Material { diffuseColor 1 0 0 } } } ] }").data

/-- The entity the Transform loop produces on `c1Input`. -/
def c1TransformShape : Shape :=
  { position := [some 1, some 2, some 3], color := "#ff0000".data,
    geometry := .box, size := some [2, 2, 2] }

/-- The duplicate the standalone-Shape loop produces on `c1Input`. -/
def c1DuplicateShape : Shape :=
  { position := [some 0, some 0, some 0], color := "#ff0000".data,
    geometry := .box, size := some [2, 2, 2] }

/-- The C2 counterexample input: a Vec3 declaration with only two numeric
tokens. -/
def c2Input : LC := ("field SFVec3f pos 1 2").data

/-- The same malformed declaration followed by a further declaration. -/
def c2Input2 : LC := ("field SFVec3f pos 1 2 field SFFloat r 5").data

/-- The C7 inputs: a Shape content whose geometry is Box with no `size`
token, and the entity it produces. -/
def c7Input : LC := ("geometry Box { }").data

def c7Shape : Shape :=
  { position := [some 0, some 0, some 0], color := tealColor, geometry := .box }

/-- The C3 counterexample: a registered template with an empty body. -/
def c3EmptyReg : ProtoRegistry := [("Empty".data, ⟨"Empty".data, [], []⟩)]

def c3EmptyText : LC := ("Empty { }").data

/-- A registry for the positive half: one float field with default 1. -/
def c3GoodReg : ProtoRegistry :=
  [("B".data, ⟨"B".data, [⟨"f".data, "SFFloat".data, .num (some 1)⟩],
    ("radius IS f").data⟩)]

def c3GoodFields : List ProtoField := [⟨"f".data, "SFFloat".data, .num (some 1)⟩]

def c3Overrides : List (LC × JSValue) := [("f".data, .num (some 2))]

/-- The C4 inputs: a self-referential template. -/
def c4SelfReg : ProtoRegistry := [("A".data, ⟨"A".data, [], ("A { }").data⟩)]

def c4SelfText : LC := ("A { }").data

/-- `IS` starts at the current position with a word boundary after it. -/
def isKeywordAt : LC → Bool
  | c :: d :: rest =>
    c = 'I' && d = 'S' && (match rest with | [] => true | e :: _ => !isWordChar e)
  | _ => false

/-- Scanner for `/\bIS\b/.test(s)` (the test the no-`IS`-remains
property uses): an `IS` with a non-word (or absent) neighbour on each
side. -/
def hkAux (prevWord : Bool) : LC → Bool
  | [] => false
  | c :: rest => (!prevWord && isKeywordAt (c :: rest)) || hkAux (isWordChar c) rest

def hasISKeyword (s : LC) : Bool := hkAux false s

/-- The C6 family: `N` newline-separated occurrences of the same binding
`radius IS fld`, a numeric value 5 for `fld`, and the expected resolved
text of `N` copies of `radius 5`. -/
def c6Line : LC := ("radius IS fld").data

def c6RepLine : LC := ("radius 5").data

def c6Match : ISMatch := ⟨"radius".data, "fld".data, c6Line⟩

def c6Body : ℕ → LC
  | 0 => []
  | 1 => c6Line
  | n + 2 => c6Line ++ '\n' :: c6Body (n + 1)

def c6Out : ℕ → LC
  | 0 => []
  | 1 => c6RepLine
  | n + 2 => c6RepLine ++ '\n' :: c6Out (n + 1)

def c6FieldValues : List (LC × JSValue) := [("fld".data, .num (some 5))]

/-- The C5 mixed body: bindings on `f` (present, string value `"q"`),
`h` (absent) and `IS` (present, numeric value 9).  The first replacement
inserts `q` right before the absent occurrence `IS IS h`, recreating the
byte pattern `q IS IS` of the third binding there, so the third global
replace then matches inside the absent occurrence's span. -/
def c5Body : LC := ("a IS f IS IS h\nq IS IS").data

def c5Fv : List (LC × JSValue) :=
  [("f".data, JSValue.str ("q").data), ("IS".data, JSValue.num (some 9))]

/-! ## Theorems for the claims, with their helper lemmas -/

theorem assocLookup_set_self {β : Type} (m : List (LC × β)) (k : LC) (v : β) :
    assocLookup (assocSet m k v) k = some v := by
  induction m with
  | nil => simp [assocSet, assocLookup]
  | cons p rest ih =>
    obtain ⟨k2, v2⟩ := p
    by_cases h : k2 = k
    · simp [assocSet, h, assocLookup]
    · simpa [assocSet, h, assocLookup] using ih

theorem assocLookup_set_ne {β : Type} (m : List (LC × β)) (k k2 : LC) (v : β)
    (h : k2 ≠ k) : assocLookup (assocSet m k v) k2 = assocLookup m k2 := by
  induction m with
  | nil => simp [assocSet, assocLookup, Ne.symm h]
  | cons p rest ih =>
    obtain ⟨k3, v3⟩ := p
    by_cases hp : k3 = k
    · subst hp
      simp [assocSet, assocLookup, Ne.symm h, h]
    · simp only [assocSet, if_neg hp, assocLookup]
      by_cases h2 : k3 = k2
      · simp [h2]
      · simp [h2, ih]

theorem mergeFold_lookup_notmem (fields : List ProtoField)
    (fv : List (LC × JSValue)) (m : List (LC × JSValue)) (n : LC)
    (h : n ∉ fields.map (fun f => f.name)) :
    assocLookup
      (fields.foldl
        (fun m2 f =>
          assocSet m2 f.name
            (match assocLookup fv f.name with
             | some v => v
             | none => f.defaultValue))
        m) n = assocLookup m n := by
  induction fields generalizing m with
  | nil => rfl
  | cons g rest ih =>
    simp only [List.map_cons, List.mem_cons, not_or] at h
    simp only [List.foldl_cons]
    rw [ih _ h.2, assocLookup_set_ne _ _ _ _ h.1]

theorem mergeFieldValues_lookup (fields : List ProtoField)
    (fv : List (LC × JSValue)) (f : ProtoField)
    (hmem : f ∈ fields) (hnd : (fields.map (fun g => g.name)).Nodup) :
    assocLookup (mergeFieldValues fields fv) f.name =
      some ((assocLookup fv f.name).getD f.defaultValue) := by
  have main : ∀ (fs : List ProtoField) (m : List (LC × JSValue)),
      f ∈ fs → (fs.map (fun g => g.name)).Nodup →
      assocLookup
        (fs.foldl
          (fun m2 g =>
            assocSet m2 g.name
              (match assocLookup fv g.name with
               | some v => v
               | none => g.defaultValue))
          m) f.name = some ((assocLookup fv f.name).getD f.defaultValue) := by
    intro fs
    induction fs with
    | nil => intro m hm; cases hm
    | cons g rest ih =>
      intro m hm hnd2
      simp only [List.map_cons, List.nodup_cons] at hnd2
      rcases List.mem_cons.mp hm with hfg | hmem2
      · subst hfg
        simp only [List.foldl_cons]
        rw [mergeFold_lookup_notmem _ _ _ _ hnd2.1, assocLookup_set_self]
        cases h : assocLookup fv f.name <;> simp [h, Option.getD]
      · exact ih _ hmem2 hnd2.2
  exact main fields [] hmem hnd

/-- C1: the claimed exactly-one-entity parse is false: the standalone
`Shape\s*\{` scan of `parseVRML` has no check excluding Shape blocks that
the Transform loop already consumed, so the example input produces two
entities, not one. -/
theorem c1_counterexample : (parseVRML c1Input).shapes.length ≠ 1 := by decide

/-- C1 (amended): on the example input the parse returns exactly two
entities: the Transform-derived one with position `[1,2,3]`, Box geometry,
size `[2,2,2]` and pure-red color, followed by a second entity from the
standalone-Shape scan with the same geometry, size and color but at the
origin — the standalone scan re-emits Shape blocks inside Transforms. -/
theorem c1_amended : parseVRML c1Input = ⟨[c1TransformShape, c1DuplicateShape]⟩ := by
  decide

/-- C2: the claimed zero-default substitution is false: a `SFVec3f`
declaration with two numeric tokens parses to the two-element value
`[1, 2]`, not to `[0, 0, 0]` — `parseFieldValue` truncates with
`slice(0, 3)` and never throws, so the `catch` that would substitute the
type-appropriate zero default is unreachable. -/
theorem c2_counterexample :
    parseProtoFields c2Input =
      [⟨"pos".data, "SFVec3f".data, .arr [some 1, some 2]⟩] ∧
    JSValue.arr [some 1, some 2] ≠ JSValue.arr [some 0, some 0, some 0] := by
  constructor
  · decide
  · decide

/-- C2 (amended): a field whose value text has too few numeric tokens
gets the tokens that were present (a truncated, possibly `NaN`-containing
value) rather than the zero default, and the remaining field
declarations in the same list are still parsed. -/
theorem c2_amended :
    parseProtoFields c2Input2 =
      [⟨"pos".data, "SFVec3f".data, .arr [some 1, some 2]⟩,
       ⟨"r".data, "SFFloat".data, .num (some 5)⟩] := by
  decide

/-- C7: the claimed `[1,1,1]` default is false: a Box without a `size`
token produces an entity whose `size` attribute is absent
(`undefined`), not `[1,1,1]`. -/
theorem c7_counterexample :
    parseShapeNode c7Input [some 0, some 0, some 0] = some c7Shape ∧
    c7Shape.size ≠ some [1, 1, 1] := by
  constructor
  · decide
  · decide

/-- C7 (amended): whenever the `size` capture finds nothing in a shape
content, the produced entity's `size` attribute is `none` (the `[1,1,1]`
appearance in the renderer comes from the A-Frame `a-box` primitive
defaults downstream, not from the parser). -/
theorem c7_amended (content : LC) (pos : List JSNum) (s : Shape)
    (h1 : parseShapeNode content pos = some s)
    (h2 : execCapClass "size".data true clsNumWs content = none) :
    s.size = none := by
  unfold parseShapeNode at h1
  rw [h2] at h1
  split_ifs at h1 <;> simp only [Option.some_inj] at h1 <;> subst h1 <;> rfl

theorem c7_witness :
    parseShapeNode c7Input [some 0, some 0, some 0] = some c7Shape ∧
    execCapClass "size".data true clsNumWs c7Input = none ∧
    c7Shape.size = none :=
  ⟨by decide, by decide, c7_amended c7Input [some 0, some 0, some 0] c7Shape
    (by decide) (by decide)⟩

/-- C8: the returned scene description is never empty — when the three
extraction loops produce nothing, the output is exactly the one default
entity (origin, teal, Box). -/
theorem c8_nonempty_fallback :
    (∀ t : LC, (parseVRML t).shapes ≠ []) ∧
    (∀ t : LC, parseVRMLCore (preprocessedText t) = [] →
      (parseVRML t).shapes = [defaultShape]) := by
  constructor
  · intro t
    simp only [parseVRML]
    split
    · simp
    · next h =>
      intro hc
      rw [hc] at h
      simp at h
  · intro t h
    simp [parseVRML, h]

theorem c8_witness :
    parseVRMLCore (preprocessedText ("hello").data) = [] ∧
    (parseVRML ("hello").data).shapes = [defaultShape] :=
  ⟨by decide, c8_nonempty_fallback.2 ("hello").data (by decide)⟩

/-- C9: the parse is total and no exception reaches the caller: the PROTO
preprocessing step always returns `ok` (none of its operations can
raise), and `parseVRML` — whose `catch` would fall back to the original
text — therefore always continues with the preprocessed text and
returns a scene description for every input. -/
theorem c9_total (t : LC) :
    ∃ u, protoPreprocessE t = Except.ok u ∧
      parseVRML t =
        ⟨if (parseVRMLCore u).isEmpty then [defaultShape] else parseVRMLCore u⟩ :=
  ⟨_, rfl, rfl⟩

/-- Strips with no sentinel produce nothing once the input ends. -/
theorem lineLoop_no_sentinel (ys : List ℚ) (h : ∀ y ∈ ys, y ≠ -1) :
    ∀ strip, lineLoop strip ys = [] := by
  induction ys with
  | nil => intro strip; rfl
  | cons i rest ih =>
    intro strip
    have hi : i ≠ -1 := h i (by simp)
    simp only [lineLoop, if_neg hi]
    exact ih (fun y hy => h y (by simp [hy])) _

theorem faceLoop_no_sentinel (ys : List ℚ) (h : ∀ y ∈ ys, y ≠ -1) :
    ∀ face, faceLoop face ys = [] := by
  induction ys with
  | nil => intro face; rfl
  | cons i rest ih =>
    intro face
    have hi : i ≠ -1 := h i (by simp)
    simp only [faceLoop, if_neg hi]
    exact ih (fun y hy => h y (by simp [hy])) _

theorem lineLoop_append (xs ys : List ℚ) (h : ∀ y ∈ ys, y ≠ -1) :
    ∀ strip, lineLoop strip (xs ++ ys) = lineLoop strip xs := by
  induction xs with
  | nil =>
    intro strip
    simpa [lineLoop] using lineLoop_no_sentinel ys h strip
  | cons i rest ih =>
    intro strip
    by_cases hi : i = -1
    · simp only [List.cons_append, lineLoop, if_pos hi, List.append_eq]
      rw [ih]
    · simp only [List.cons_append, lineLoop, if_neg hi, List.append_eq]
      exact ih _

theorem faceLoop_append (xs ys : List ℚ) (h : ∀ y ∈ ys, y ≠ -1) :
    ∀ face, faceLoop face (xs ++ ys) = faceLoop face xs := by
  induction xs with
  | nil =>
    intro face
    simpa [faceLoop] using faceLoop_no_sentinel ys h face
  | cons i rest ih =>
    intro face
    by_cases hi : i = -1
    · simp only [List.cons_append, faceLoop, if_pos hi, List.append_eq]
      rw [ih]
    · simp only [List.cons_append, faceLoop, if_neg hi, List.append_eq]
      exact ih _

/-- C10: in coordIndex post-processing, a final index segment not
terminated by the `-1` sentinel contributes nothing: appending any
sentinel-free tail to the raw index list changes neither the generated
line segments nor the generated triangles, whatever the tail's length. -/
theorem c10_trailing_segment_dropped (xs ys : List ℚ) (h : ∀ y ∈ ys, y ≠ -1) :
    lineIndicesOf (xs ++ ys) = lineIndicesOf xs ∧
    faceIndicesOf (xs ++ ys) = faceIndicesOf xs :=
  ⟨lineLoop_append xs ys h [], faceLoop_append xs ys h []⟩

theorem c10_witness :
    (∀ y ∈ ([3, 4, 5] : List ℚ), y ≠ -1) ∧
    lineIndicesOf ([0, 1, 2, -1] ++ [3, 4, 5]) = lineIndicesOf [0, 1, 2, -1] ∧
    faceIndicesOf ([0, 1, 2, -1] ++ [3, 4, 5]) = faceIndicesOf [0, 1, 2, -1] :=
  ⟨by decide,
   (c10_trailing_segment_dropped [0, 1, 2, -1] [3, 4, 5] (by decide)).1,
   (c10_trailing_segment_dropped [0, 1, 2, -1] [3, 4, 5] (by decide)).2⟩

/-- C3: the claimed replacement of every usage span is false for a usage
whose expanded body text is empty: `expandAllProtos` treats the empty
expansion as falsy and leaves the usage span untouched (the text comes
back unchanged, not with the span removed). -/
theorem c3_counterexample :
    expandAllProtos c3EmptyText c3EmptyReg 10 0 = c3EmptyText ∧
    c3EmptyText ≠ [] := by
  constructor
  · decide
  · decide

/-- C3 (amended): the merged mapping gives every declared field a value
with a usage-supplied override winning over the default, and a located
usage is replaced by its body expanded under that mapping whenever the
expanded body text is non-empty (an empty expansion is skipped and the
usage left in place). -/
theorem c3_amended :
    (∀ (fields : List ProtoField) (fv : List (LC × JSValue)) (f : ProtoField),
      f ∈ fields → (fields.map (fun g => g.name)).Nodup →
      assocLookup (mergeFieldValues fields fv) f.name =
        some ((assocLookup fv f.name).getD f.defaultValue)) ∧
    expandAllProtos ("B { f 2 }").data c3GoodReg 10 0 = ("radius 2").data := by
  constructor
  · exact mergeFieldValues_lookup
  · decide

theorem c3_witness :
    assocLookup (mergeFieldValues c3GoodFields c3Overrides) ("f".data) =
      some (JSValue.num (some 2)) := by
  have h := c3_amended.1 c3GoodFields c3Overrides
    ⟨"f".data, "SFFloat".data, .num (some 1)⟩ (by decide) (by decide)
  exact h.trans (by decide)

/-- C4: recursive expansion always terminates: reaching the caller-supplied
depth ceiling returns the (partially expanded) text unchanged from that
point, a pass that finds zero usages returns the text, and a
self-referential template under the default ceiling of 10 terminates and
returns the partially expanded text. -/
theorem c4_termination :
    (∀ (t : LC) (reg : ProtoRegistry) (m d : ℕ), m ≤ d →
      expandAllProtos t reg m d = t) ∧
    (∀ (t : LC) (reg : ProtoRegistry) (m d : ℕ),
      parseProtoInstances t reg = [] → expandAllProtos t reg m d = t) ∧
    expandAllProtos c4SelfText c4SelfReg 10 0 = c4SelfText := by
  refine ⟨?_, ?_, by decide⟩
  · intro t reg m d h
    unfold expandAllProtos
    rw [Nat.sub_eq_zero_of_le h]
    rfl
  · intro t reg m d h
    unfold expandAllProtos
    cases m - d with
    | zero => rfl
    | succ n => simp [expandPasses, h]

theorem c4_witness :
    expandAllProtos ("x").data [] 10 12 = ("x").data ∧
    expandAllProtos ("y").data [] 10 0 = ("y").data :=
  ⟨c4_termination.1 ("x").data [] 10 12 (by decide),
   c4_termination.2.1 ("y").data [] 10 0 (by decide)⟩

/-- `litAt false x s` says `x` is literally the first part of `s`. -/
theorem litAt_append (x : LC) : ∀ s : LC, litAt false x s = true →
    x ++ s.drop x.length = s := by
  induction x with
  | nil => intro s _; simp
  | cons p ps ih =>
    intro s h
    cases s with
    | nil => simp [litAt] at h
    | cons c cs =>
      simp [litAt] at h
      obtain ⟨rfl, h2⟩ := h
      simpa using ih cs h2

/-- The skip mode of `rabAux` just drops the skipped characters. -/
theorem rabAux_skip (x r : LC) : ∀ (n : ℕ) (s : LC),
    rabAux x r n s = rabAux x r 0 (s.drop n) := by
  intro n
  induction n with
  | zero => intro s; simp
  | succ n ih =>
    intro s
    cases s with
    | nil => simp [rabAux]
    | cons c rest => simpa [rabAux] using ih rest

/-- Replacing a pattern by itself is the identity. -/
theorem replaceAllBound_self (x : LC) : ∀ s : LC, replaceAllBound s x x = s := by
  have main : ∀ (n : ℕ) (s : LC), s.length ≤ n → rabAux x x 0 s = s := by
    intro n
    induction n with
    | zero =>
      intro s hs
      have hnil : s = [] := List.length_eq_zero.mp (Nat.le_zero.mp hs)
      subst hnil
      rfl
    | succ n ih =>
      intro s hs
      cases s with
      | nil => rfl
      | cons c rest =>
        show rabAux x x 0 (c :: rest) = c :: rest
        by_cases hcond :
            (!x.isEmpty && litAt false x (c :: rest) &&
              boundaryAfter x ((c :: rest).drop x.length)) = true
        · rw [show rabAux x x 0 (c :: rest) =
              x ++ rabAux x x (x.length - 1) rest by simp [rabAux, hcond]]
          have hx : x ≠ [] := by
            intro hxe
            rw [hxe] at hcond
            simp [litAt] at hcond
          have hpre : litAt false x (c :: rest) = true := by
            rcases Bool.and_eq_true_iff.mp hcond with ⟨h1, _⟩
            exact (Bool.and_eq_true_iff.mp h1).2
          obtain ⟨y, ys, rfl⟩ := List.exists_cons_of_ne_nil hx
          have hdrop : rest.drop ((y :: ys).length - 1) =
              (c :: rest).drop (y :: ys).length := by simp
          rw [rabAux_skip, hdrop]
          have hlen : ((c :: rest).drop (y :: ys).length).length ≤ n := by
            have := List.length_drop ((y :: ys).length) (c :: rest)
            simp only [this]
            simp only [List.length_cons] at hs ⊢
            omega
          rw [ih _ hlen]
          exact litAt_append _ _ hpre
        · rw [show rabAux x x 0 (c :: rest) = c :: rabAux x x 0 rest by
              simp [rabAux, hcond]]
          rw [ih rest (by simp only [List.length_cons] at hs; omega)]
  intro s
  exact main s.length s (Nat.le_refl _)

/-- Folding identity replacement pairs changes nothing. -/
theorem foldl_replace_id (l : List (LC × LC)) (h : ∀ p ∈ l, p.2 = p.1) :
    ∀ b : LC, l.foldl (fun s p => replaceAllBound s p.1 p.2) b = b := by
  induction l with
  | nil => intro b; rfl
  | cons p rest ih =>
    intro b
    have hp : p.2 = p.1 := h p (by simp)
    simp only [List.foldl_cons, hp, replaceAllBound_self]
    exact ih (fun q hq => h q (by simp [hq])) b

/-- C5: the claimed leave-unchanged guarantee fails on mixed bodies: in
`a IS f IS IS h\nq IS IS` with `f ↦ "q"` (string), `IS ↦ 9` and `h`
absent, the scanner finds the three bindings `a IS f`, `IS IS h` (field
`h` absent) and `q IS IS`; the first replacement inserts `q` before the
absent occurrence, recreating the `q IS IS` pattern there, and the third
global replace then rewrites inside the absent occurrence's span — the
output `a q 9 h\nq 9` no longer contains `IS h` at all, so the absent
occurrence was not left textually unchanged. -/
theorem c5_counterexample :
    scanIS c5Body =
      [⟨"a".data, "f".data, ("a IS f").data⟩,
       ⟨"IS".data, "h".data, ("IS IS h").data⟩,
       ⟨"q".data, "IS".data, ("q IS IS").data⟩] ∧
    assocLookup c5Fv ("h".data) = none ∧
    resolveISBindings c5Body c5Fv = ("a q 9 h\nq 9").data ∧
    containsLit false ("IS h").data (resolveISBindings c5Body c5Fv) = false := by
  refine ⟨?_, ?_, ?_, ?_⟩
  · decide
  · decide
  · decide
  · decide

/-- C5 (amended): an `IS` binding whose field is absent from the value
mapping contributes only the identity replacement, so its own resolution
step leaves the text unchanged and resolution always completes; in
particular a body all of whose bindings reference absent fields is
returned verbatim (each still containing its `IS fieldName` text).  In
mixed bodies this per-occurrence guarantee can be defeated by the other
bindings' replacements, as the counterexample shows, so it does not
extend to every body. -/
theorem c5_absent_unchanged :
    (∀ (fv : List (LC × JSValue)) (m : ISMatch),
      assocLookup fv m.fld = none → mkISReplacement fv m = (m.orig, m.orig)) ∧
    (∀ s x : LC, replaceAllBound s x x = s) ∧
    (∀ (body : LC) (fv : List (LC × JSValue)),
      (∀ m ∈ scanIS body, assocLookup fv m.fld = none) →
      resolveISBindings body fv = body) := by
  refine ⟨?_, ?_, ?_⟩
  · intro fv m h
    simp [mkISReplacement, h]
  · intro s x
    exact replaceAllBound_self x s
  · intro body fv h
    unfold resolveISBindings
    apply foldl_replace_id
    intro p hp
    rcases List.mem_map.mp hp with ⟨m, hm, rfl⟩
    simp [mkISReplacement, h m hm]

theorem c5_witness :
    resolveISBindings ("radius IS foo").data [("bar".data, JSValue.num (some 1))] =
      ("radius IS foo").data :=
  c5_absent_unchanged.2.2 ("radius IS foo").data
    [("bar".data, JSValue.num (some 1))] (by decide)

/-- C6: the claimed absence of any remaining `IS` keyword is false when
the formatted field value itself contains one: with the string-typed
value `"IS"` for `f` (present in the mapping), the single binding
`radius IS f` resolves to `radius IS`, which still contains an `IS`
keyword. -/
theorem c6_counterexample :
    resolveISBindings ("radius IS f").data
      [("f".data, JSValue.str ("IS").data)] = ("radius IS").data ∧
    hasISKeyword ("radius IS").data = true := by
  constructor
  · decide
  · decide

theorem c6_scan_step (rest : LC) :
    scanIS (c6Line ++ '\n' :: rest) = c6Match :: scanIS rest := rfl

theorem c6_scan (N : ℕ) : scanIS (c6Body N) = List.replicate N c6Match := by
  induction N using Nat.twoStepInduction with
  | zero => rfl
  | one => rfl
  | more n _ ih1 =>
    show scanIS (c6Line ++ '\n' :: c6Body (n + 1)) = _
    rw [c6_scan_step, ih1]
    rfl

theorem c6_replace_step (rest : LC) :
    rabAux c6Line c6RepLine 0 (c6Line ++ '\n' :: rest) =
      c6RepLine ++ '\n' :: rabAux c6Line c6RepLine 0 rest := rfl

theorem c6_replace_body (N : ℕ) :
    replaceAllBound (c6Body N) c6Line c6RepLine = c6Out N := by
  induction N using Nat.twoStepInduction with
  | zero => rfl
  | one => rfl
  | more n _ ih1 =>
    show rabAux c6Line c6RepLine 0 (c6Line ++ '\n' :: c6Body (n + 1)) = _
    rw [c6_replace_step]
    exact congrArg (fun t => c6RepLine ++ '\n' :: t) ih1

theorem litAt_subset (x : LC) (s : LC) (h : litAt false x s = true) :
    ∀ a ∈ x, a ∈ s := by
  intro a ha
  rw [← litAt_append x s h]
  exact List.mem_append_left _ ha

theorem rab_noop_of_no_I (s : LC) (h : 'I' ∉ s) :
    rabAux c6Line c6RepLine 0 s = s := by
  induction s with
  | nil => rfl
  | cons c rest ih =>
    by_cases hcond :
        (!c6Line.isEmpty && litAt false c6Line (c :: rest) &&
          boundaryAfter c6Line ((c :: rest).drop c6Line.length)) = true
    · exfalso
      have hpre : litAt false c6Line (c :: rest) = true := by
        rcases Bool.and_eq_true_iff.mp hcond with ⟨h1, _⟩
        exact (Bool.and_eq_true_iff.mp h1).2
      exact h (litAt_subset _ _ hpre 'I' (by decide))
    · rw [show rabAux c6Line c6RepLine 0 (c :: rest) =
          c :: rabAux c6Line c6RepLine 0 rest by simp [rabAux, hcond]]
      rw [ih (fun hm => h (List.mem_cons_of_mem _ hm))]

theorem c6Out_no_I (N : ℕ) : 'I' ∉ c6Out N := by
  induction N using Nat.twoStepInduction with
  | zero => simp [c6Out]
  | one => decide
  | more n _ ih1 =>
    show 'I' ∉ c6RepLine ++ '\n' :: c6Out (n + 1)
    simp only [List.mem_append, List.mem_cons, not_or]
    exact ⟨by decide, by decide, ih1⟩

theorem c6_fold_tail (b : LC) (hb : 'I' ∉ b) :
    ∀ k, (List.replicate k ((c6Line, c6RepLine) : LC × LC)).foldl
      (fun s p => replaceAllBound s p.1 p.2) b = b := by
  intro k
  induction k with
  | zero => rfl
  | succ k ih =>
    simp only [List.replicate_succ, List.foldl_cons]
    rw [show replaceAllBound b c6Line c6RepLine = b from rab_noop_of_no_I b hb]
    exact ih

/-- C6 (amended): for every `N`, a body of `N` newline-separated
occurrences of the one binding `radius IS fld`, with the numeric value 5
for `fld` present in the mapping, resolves to `N` copies of the
byte-identical `radius 5` — the same formatted value at every occurrence
— and no `IS` keyword remains.  (The no-`IS` half of the original claim
needs the formatted value itself to be `IS`-free, which numeric and
tuple values always are; the counterexample shows a string value `"IS"`
violating it.) -/
theorem c6_amended (N : ℕ) :
    resolveISBindings (c6Body N) c6FieldValues = c6Out N ∧
    hasISKeyword (c6Out N) = false := by
  constructor
  · unfold resolveISBindings
    rw [c6_scan, List.map_replicate]
    rw [show mkISReplacement c6FieldValues c6Match = (c6Line, c6RepLine) from by decide]
    cases N with
    | zero => rfl
    | succ n =>
      simp only [List.replicate_succ, List.foldl_cons]
      rw [show replaceAllBound (c6Body (n + 1)) c6Line c6RepLine = c6Out (n + 1) from
        c6_replace_body (n + 1)]
      exact c6_fold_tail _ (c6Out_no_I (n + 1)) n
  · have main : ∀ (s : LC), 'I' ∉ s → ∀ pw, hkAux pw s = false := by
      intro s
      induction s with
      | nil => intro _ _; rfl
      | cons c rest ih =>
        intro h pw
        have hc : c ≠ 'I' := fun hce => h (hce ▸ List.mem_cons_self c rest)
        have hkw : isKeywordAt (c :: rest) = false := by
          cases rest with
          | nil => rfl
          | cons d rest2 =>
            simp [isKeywordAt, hc]
        simp only [hkAux, hkw, Bool.and_false, Bool.false_or]
        exact ih (fun hm => h (List.mem_cons_of_mem _ hm)) _
    exact main _ (c6Out_no_I N) false

theorem c6_witness :
    resolveISBindings (c6Body 3) c6FieldValues = c6Out 3 ∧
    hasISKeyword (c6Out 3) = false :=
  ⟨(c6_amended 3).1, (c6_amended 3).2⟩
